import Mathlib

/-!
Shallow embedding of the wachat binary-manager subsystem (`app.go`,
`service.BinaryManager`, `config.BinariesConfig`) and proofs about it.

OS effects (cache-dir resolution, mkdir, file write, stat, chmod, process
spawn, kill) are modelled by an explicit environment of oracles `OsEnv`
together with an explicit filesystem state `FileSystem`; the Go functions
become pure Lean functions threading that state.
-/

namespace Wachat

/-- `filepath.Join a b` for ordinary path components. -/
def joinPath (a b : String) : String := a ++ "/" ++ b

/-- `filepath.IsAbs` on Unix: the path starts with a slash. -/
def isAbs (p : String) : Bool := p.startsWith "/"

/-- A file on disk: its byte contents and its permission mode bits. -/
structure File where
  data : List Nat
  mode : Nat
deriving DecidableEq, Repr

/-- The owner-execute permission bit (0o100) of a mode is set. -/
def hasExecPerm (mode : Nat) : Bool := mode / 64 % 2 = 1

/-- The filesystem: a partial map from absolute path to file. -/
def FileSystem := String → Option File

/-- The embedded payload (`embed.FS binaries`): a read-only partial map
from relative path (such as `bin/name`) to byte contents. -/
def EmbedFS := String → Option (List Nat)

/-- One entry of `bm.processes`: an `*exec.Cmd` after `Start` — the logical
name, the resolved executable path, and the OS process (`cmd.Process`),
which is null until `Start` succeeds. -/
structure ProcessHandle where
  name : String
  path : String
  osProc : Option Nat
deriving DecidableEq, Repr

/-- The `service.BinaryManager` struct. -/
structure BinaryManager where
  useEmbedded : Bool
  binaries : EmbedFS
  binPath : String
  processes : List ProcessHandle
  execOrder : List String
  cacheDir : String

/-- Oracles deciding the outcome of each OS call the code makes. -/
structure OsEnv where
  /-- `os.UserCacheDir()`: the user cache root, or failure. -/
  userCacheDir : Option String
  /-- `os.MkdirAll path 0755` succeeds. -/
  mkdirOk : String → Bool
  /-- `filepath.Abs p`: the absolute form of a relative path, or failure. -/
  absPath : String → Option String
  /-- `os.WriteFile path data 0755` succeeds. -/
  writeOk : String → Bool
  /-- `os.Chmod path 0755` succeeds. -/
  chmodOk : String → Bool
  /-- `cmd.Start()` on this executable path succeeds. -/
  startOk : String → Bool
  /-- The PID the OS assigns to a spawned executable. -/
  pidOf : String → Nat
  /-- `cmd.Process.Kill()` on this PID succeeds. -/
  killOk : Nat → Bool
  /-- `backend.NewAPI()` succeeds. -/
  apiOk : Bool

/-- Errors fatal to construction (`ConfigError` taxonomy). -/
inductive ConfigError where
  | disabled
  | noBinariesInStartupOrder
  | cacheDirUnavailable
  | cacheDirCreateFailed
  | binPathResolveFailed
deriving DecidableEq, Repr

/-- Per-binary errors of `startBinary`. -/
inductive StartErr where
  | payloadNotFound
  | extraction
  | binaryNotFound
  | launch
deriving DecidableEq, Repr

/-- The one error `StartAll` itself can return. -/
inductive StartAllErr where
  | noBinariesStarted
deriving DecidableEq, Repr

/-- The `config.BinariesConfig` struct (the concrete receiver; the Go
interface value is modelled as `Option BinariesConfig`, `none` for nil). -/
structure BinariesConfig where
  enabled : Bool
  useEmbedded : Bool
  binPath : String
  startupOrder : List String

/-- `(*BinariesConfig).IsEnabled`: nil receivers report disabled. -/
def IsEnabled : Option BinariesConfig → Bool
  | some c => c.enabled
  | none => false

/-- `(*BinariesConfig).IsUseEmbedded`: nil receivers report false. -/
def IsUseEmbedded : Option BinariesConfig → Bool
  | some c => c.useEmbedded
  | none => false

/-- `(*BinariesConfig).GetBinPath`: nil receivers yield the empty string. -/
def GetBinPath : Option BinariesConfig → String
  | some c => c.binPath
  | none => ""

/-- `(*BinariesConfig).GetStartupOrder`: nil receivers yield an empty list. -/
def GetStartupOrder : Option BinariesConfig → List String
  | some c => c.startupOrder
  | none => []

/-- `service.NewBinaryManager`.  Returns the construction result together
with the list of directories created (`os.MkdirAll` calls that succeeded),
so that side effects of construction are observable. -/
def NewBinaryManager (env : OsEnv) (useEmbedded : Bool) (binaries : EmbedFS)
    (binPath : String) (execOrder : List String) :
    Except ConfigError BinaryManager × List String :=
  if useEmbedded then
    match env.userCacheDir with
    | none => (.error .cacheDirUnavailable, [])
    | some userCacheRoot =>
      let cacheDir := joinPath (joinPath userCacheRoot "wachat") "bin"
      if env.mkdirOk cacheDir then
        (.ok { useEmbedded := useEmbedded, binaries := binaries, binPath := binPath,
               processes := [], execOrder := execOrder, cacheDir := cacheDir },
         [cacheDir])
      else
        (.error .cacheDirCreateFailed, [])
  else
    let resolved : Except ConfigError String :=
      if isAbs binPath then .ok binPath
      else
        match env.absPath binPath with
        | none => .error .binPathResolveFailed
        | some a => .ok a
    match resolved with
    | .error e => (.error e, [])
    | .ok bp =>
      (.ok { useEmbedded := useEmbedded, binaries := binaries, binPath := bp,
             processes := [], execOrder := execOrder, cacheDir := bp },
       [])

/-- `service.NewBinaryManagerFromConfig`.  The Go guard
`cfg == nil || !cfg.IsEnabled()` is equivalent to `!IsEnabled cfg`
because `IsEnabled` of a nil receiver is false. -/
def NewBinaryManagerFromConfig (env : OsEnv) (cfg : Option BinariesConfig)
    (binaries : EmbedFS) : Except ConfigError BinaryManager × List String :=
  if IsEnabled cfg = false then
    (.error .disabled, [])
  else
    let startupOrder := GetStartupOrder cfg
    if startupOrder.isEmpty then
      (.error .noBinariesInStartupOrder, [])
    else
      let binPath := GetBinPath cfg
      let binPath := if binPath = "" then "./bin" else binPath
      NewBinaryManager env (IsUseEmbedded cfg) binaries binPath startupOrder

/-- `os.WriteFile path data mode`: create or overwrite the file. -/
def writeFile (fs : FileSystem) (path : String) (data : List Nat) (mode : Nat) :
    FileSystem :=
  fun p => if p = path then some ⟨data, mode⟩ else fs p

/-- `os.Chmod path mode` on an existing file: replace its mode bits. -/
def chmodFile (fs : FileSystem) (path : String) (mode : Nat) : FileSystem :=
  fun p => if p = path then (fs p).map (fun f => ⟨f.data, mode⟩) else fs p

/-- The tail of `startBinary` shared by both modes: build the command,
`cmd.Start()`, and on success append the handle to `bm.processes` (the
per-process waiter goroutine is purely observational and is not modelled). -/
def launchProcess (env : OsEnv) (name executablePath : String)
    (bm : BinaryManager) (fs : FileSystem) :
    Except StartErr Unit × BinaryManager × FileSystem :=
  if env.startOk executablePath then
    (.ok (),
     { bm with processes :=
         bm.processes ++ [⟨name, executablePath, some (env.pidOf executablePath)⟩] },
     fs)
  else
    (.error .launch, bm, fs)

/-- `(*BinaryManager).startBinary`: resolve (extract in embedded mode,
stat + chmod in local mode) and launch a single binary. -/
def startBinary (env : OsEnv) (bm : BinaryManager) (fs : FileSystem)
    (name : String) : Except StartErr Unit × BinaryManager × FileSystem :=
  if bm.useEmbedded then
    match bm.binaries (joinPath "bin" name) with
    | none => (.error .payloadNotFound, bm, fs)
    | some data =>
      let executablePath := joinPath bm.cacheDir name
      if env.writeOk executablePath then
        launchProcess env name executablePath bm (writeFile fs executablePath data 493)
      else
        (.error .extraction, bm, fs)
  else
    let executablePath := joinPath bm.cacheDir name
    match fs executablePath with
    | none => (.error .binaryNotFound, bm, fs)
    | some _ =>
      let fs1 := if env.chmodOk executablePath then chmodFile fs executablePath 493 else fs
      launchProcess env name executablePath bm fs1

/-- The loop body of `StartAll`: attempt each name in order, threading the
manager and filesystem, counting successes, and recording the trace of
attempts (name and per-binary result) in order. -/
def startAllLoop (env : OsEnv) :
    List String → BinaryManager → FileSystem → Nat →
    Nat × BinaryManager × FileSystem × List (String × Except StartErr Unit)
  | [], bm, fs, successCount => (successCount, bm, fs, [])
  | name :: rest, bm, fs, successCount =>
    match startBinary env bm fs name with
    | (.ok u, bm1, fs1) =>
      let r := startAllLoop env rest bm1 fs1 (successCount + 1)
      (r.1, r.2.1, r.2.2.1, (name, .ok u) :: r.2.2.2)
    | (.error e, bm1, fs1) =>
      let r := startAllLoop env rest bm1 fs1 successCount
      (r.1, r.2.1, r.2.2.1, (name, .error e) :: r.2.2.2)

/-- `(*BinaryManager).StartAll`: attempt every name of `execOrder`; fail
only when the success count is zero. -/
def StartAll (env : OsEnv) (bm : BinaryManager) (fs : FileSystem) :
    Except StartAllErr Unit × BinaryManager × FileSystem :=
  let r := startAllLoop env bm.execOrder bm fs 0
  if r.1 = 0 then (.error .noBinariesStarted, r.2.1, r.2.2.1)
  else (.ok (), r.2.1, r.2.2.1)

/-- The trace of per-binary attempts a `StartAll` run performs. -/
def startAllTrace (env : OsEnv) (bm : BinaryManager) (fs : FileSystem) :
    List (String × Except StartErr Unit) :=
  (startAllLoop env bm.execOrder bm fs 0).2.2.2

/-- An attempt of the trace that succeeded. -/
def isOkAttempt : String × Except StartErr Unit → Bool
  | (_, .ok _) => true
  | (_, .error _) => false

/-- Number of successful attempts in a trace. -/
def okCount (tr : List (String × Except StartErr Unit)) : Nat :=
  (tr.filter isOkAttempt).length

/-- `(*BinaryManager).GetProcessCount`. -/
def GetProcessCount (bm : BinaryManager) : Nat := bm.processes.length

/-- What one `Cleanup` call does: the manager afterwards (the Go loop never
mutates `bm.processes`), the PIDs it sent a kill signal to (exactly the
handles whose OS process is non-null, in append order), and the kill
failures, which are only logged. -/
structure CleanupResult where
  bm : BinaryManager
  signalled : List Nat
  killFailuresLogged : List Nat

/-- `(*BinaryManager).Cleanup`. -/
def Cleanup (env : OsEnv) (bm : BinaryManager) : CleanupResult :=
  let pids := bm.processes.filterMap (fun h => h.osProc)
  { bm := bm
    signalled := pids
    killFailuresLogged := pids.filter (fun p => !env.killOk p) }

/-- `n` successive `Cleanup` calls, threading the manager state. -/
def cleanupN (env : OsEnv) : Nat → BinaryManager → BinaryManager
  | 0, bm => bm
  | n + 1, bm => cleanupN env n (Cleanup env bm).bm

/-- The `App` struct, keeping only the field this subsystem owns:
`binaryManager`, which stays nil when construction failed. -/
structure App where
  binaryManager : Option BinaryManager

/-- `NewApp`: panics (`none`) only when `backend.NewAPI` fails; a binary
manager construction error is logged and leaves the field nil. -/
def NewApp (env : OsEnv) (cfg : Option BinariesConfig) (binaries : EmbedFS) :
    Option App :=
  if env.apiOk then
    match NewBinaryManagerFromConfig env cfg binaries with
    | (.ok bm, _) => some { binaryManager := some bm }
    | (.error _, _) => some { binaryManager := none }
  else
    none

/-- `(*App).startup`: runs `StartAll` only when the manager is non-nil;
a `StartAll` error is logged, not propagated. -/
def App.startup (env : OsEnv) (a : App) (fs : FileSystem) : App × FileSystem :=
  match a.binaryManager with
  | none => (a, fs)
  | some bm =>
    let r := StartAll env bm fs
    ({ binaryManager := some r.2.1 }, r.2.2)

/-- `(*App).shutdown`: runs `Cleanup` only when the manager is non-nil;
returns the PIDs signalled. -/
def App.shutdown (env : OsEnv) (a : App) : App × List Nat :=
  match a.binaryManager with
  | none => (a, [])
  | some bm =>
    let r := Cleanup env bm
    ({ binaryManager := some r.bm }, r.signalled)

/-! ## Concrete instances used as witnesses -/

/-- An environment in which every OS call succeeds. -/
def envC : OsEnv where
  userCacheDir := some "/cache"
  mkdirOk := fun _ => true
  absPath := fun p => some (joinPath "/abs" p)
  writeOk := fun _ => true
  chmodOk := fun _ => true
  startOk := fun _ => true
  pidOf := fun _ => 7
  killOk := fun _ => true
  apiOk := true

/-- A payload holding bytes for the single name `a`. -/
def embC : EmbedFS := fun p => if p = joinPath "bin" "a" then some [1] else none

/-- The empty filesystem. -/
def fsEmpty : FileSystem := fun _ => none

/-- The manager `NewBinaryManager envC true embC "./bin" ["a", "a"]`
constructs: embedded mode, duplicated startup order. -/
def bmC : BinaryManager where
  useEmbedded := true
  binaries := embC
  binPath := "./bin"
  processes := []
  execOrder := ["a", "a"]
  cacheDir := joinPath (joinPath "/cache" "wachat") "bin"

/-- A local-mode manager over an absolute bin path. -/
def bmL : BinaryManager where
  useEmbedded := false
  binaries := embC
  binPath := "/abs/bin"
  processes := []
  execOrder := ["x", "y"]
  cacheDir := "/abs/bin"

/-! ## Helper lemmas -/

/-- A failed `startBinary` leaves the manager unchanged: nothing was
spawned and nothing was appended to `processes`. -/
theorem startBinary_error_manager (env : OsEnv) (bm : BinaryManager)
    (fs : FileSystem) (name : String) (e : StartErr) (bm' : BinaryManager)
    (fs' : FileSystem)
    (h : startBinary env bm fs name = (.error e, bm', fs')) : bm' = bm := by
  cases hm : bm.useEmbedded with
  | true =>
    rcases hd : bm.binaries (joinPath "bin" name) with _ | data
    · simp [startBinary, launchProcess, hm, hd] at h
      exact h.2.1.symm
    · cases hw : env.writeOk (joinPath bm.cacheDir name) with
      | true =>
        cases hs : env.startOk (joinPath bm.cacheDir name) with
        | true => simp [startBinary, launchProcess, hm, hd, hw, hs] at h
        | false =>
          simp [startBinary, launchProcess, hm, hd, hw, hs] at h
          exact h.2.1.symm
      | false =>
        simp [startBinary, launchProcess, hm, hd, hw] at h
        exact h.2.1.symm
  | false =>
    rcases hf : fs (joinPath bm.cacheDir name) with _ | f
    · simp [startBinary, launchProcess, hm, hf] at h
      exact h.2.1.symm
    · cases hs : env.startOk (joinPath bm.cacheDir name) with
      | true => simp [startBinary, launchProcess, hm, hf, hs] at h
      | false =>
        simp [startBinary, launchProcess, hm, hf, hs] at h
        exact h.2.1.symm

/-- A successful `startBinary` appends exactly one handle, carrying the
attempted name, the resolved path `cacheDir/name`, and a non-null OS
process. -/
theorem startBinary_ok_manager (env : OsEnv) (bm : BinaryManager)
    (fs : FileSystem) (name : String) (u : Unit) (bm' : BinaryManager)
    (fs' : FileSystem)
    (h : startBinary env bm fs name = (.ok u, bm', fs')) :
    bm' = { bm with processes := bm.processes ++
        [⟨name, joinPath bm.cacheDir name,
          some (env.pidOf (joinPath bm.cacheDir name))⟩] } := by
  cases hm : bm.useEmbedded with
  | true =>
    rcases hd : bm.binaries (joinPath "bin" name) with _ | data
    · simp [startBinary, launchProcess, hm, hd] at h
    · cases hw : env.writeOk (joinPath bm.cacheDir name) with
      | true =>
        cases hs : env.startOk (joinPath bm.cacheDir name) with
        | true =>
          simp [startBinary, launchProcess, hm, hd, hw, hs] at h
          exact h.1.symm
        | false => simp [startBinary, launchProcess, hm, hd, hw, hs] at h
      | false => simp [startBinary, launchProcess, hm, hd, hw] at h
  | false =>
    rcases hf : fs (joinPath bm.cacheDir name) with _ | f
    · simp [startBinary, launchProcess, hm, hf] at h
    · cases hs : env.startOk (joinPath bm.cacheDir name) with
      | true =>
        simp [startBinary, launchProcess, hm, hf, hs] at h
        exact h.1.symm
      | false => simp [startBinary, launchProcess, hm, hf, hs] at h

/-- The trace of the `StartAll` loop records every requested name, in the
requested order, whatever the per-binary outcomes. -/
theorem startAllLoop_trace_names (env : OsEnv) (names : List String)
    (bm : BinaryManager) (fs : FileSystem) (c : Nat) :
    ((startAllLoop env names bm fs c).2.2.2).map Prod.fst = names := by
  induction names generalizing bm fs c with
  | nil => simp [startAllLoop]
  | cons name rest ih =>
    rcases hsb : startBinary env bm fs name with ⟨res, bm1, fs1⟩
    cases res with
    | ok u => simp [startAllLoop, hsb, ih]
    | error e => simp [startAllLoop, hsb, ih]

/-- The success counter returned by the loop is its initial value plus the
number of successful attempts in the trace. -/
theorem startAllLoop_count (env : OsEnv) (names : List String)
    (bm : BinaryManager) (fs : FileSystem) (c : Nat) :
    (startAllLoop env names bm fs c).1
      = c + okCount (startAllLoop env names bm fs c).2.2.2 := by
  induction names generalizing bm fs c with
  | nil => simp [startAllLoop, okCount]
  | cons name rest ih =>
    rcases hsb : startBinary env bm fs name with ⟨res, bm1, fs1⟩
    cases res with
    | ok u =>
      simp only [startAllLoop, hsb, okCount, List.filter, isOkAttempt,
        List.length_cons]
      rw [ih]
      simp [okCount]
      omega
    | error e =>
      simp only [startAllLoop, hsb, okCount, List.filter, isOkAttempt,
        List.length_cons]
      rw [ih]
      simp [okCount]

/-- The loop grows `processes` by exactly one handle per successful
attempt. -/
theorem startAllLoop_processes_length (env : OsEnv) (names : List String)
    (bm : BinaryManager) (fs : FileSystem) (c : Nat) :
    (startAllLoop env names bm fs c).2.1.processes.length
      = bm.processes.length + okCount (startAllLoop env names bm fs c).2.2.2 := by
  induction names generalizing bm fs c with
  | nil => simp [startAllLoop, okCount]
  | cons name rest ih =>
    rcases hsb : startBinary env bm fs name with ⟨res, bm1, fs1⟩
    cases res with
    | ok u =>
      have hbm1 := startBinary_ok_manager env bm fs name u bm1 fs1 hsb
      simp only [startAllLoop, hsb, okCount, List.filter, isOkAttempt,
        List.length_cons]
      rw [ih]
      subst hbm1
      simp [okCount]
      omega
    | error e =>
      have hbm1 := startBinary_error_manager env bm fs name e bm1 fs1 hsb
      simp only [startAllLoop, hsb, okCount, List.filter, isOkAttempt]
      rw [ih]
      subst hbm1
      simp [okCount]

/-- The manager `StartAll` returns is the one the loop produced, whichever
branch of the final zero-success test is taken. -/
theorem StartAll_manager (env : OsEnv) (bm : BinaryManager) (fs : FileSystem) :
    (StartAll env bm fs).2.1 = (startAllLoop env bm.execOrder bm fs 0).2.1 := by
  simp only [StartAll]
  split <;> rfl

/-! ## Claims -/

/-- C1: For every execOrder, `StartAll` returns `NoBinariesStartedError`
if and only if the number of per-binary launch attempts that succeeded is
zero; if at least one launch succeeded it returns success (no error),
regardless of how many individual attempts failed. -/
theorem startAll_error_iff_zero_successes (env : OsEnv) (bm : BinaryManager)
    (fs : FileSystem) :
    ((StartAll env bm fs).1 = .error .noBinariesStarted
        ↔ okCount (startAllTrace env bm fs) = 0)
    ∧ ((StartAll env bm fs).1 = .ok ()
        ↔ okCount (startAllTrace env bm fs) ≠ 0) := by
  have hc := startAllLoop_count env bm.execOrder bm fs 0
  rw [Nat.zero_add] at hc
  by_cases hz : okCount ((startAllLoop env bm.execOrder bm fs 0).2.2.2) = 0
  · simp [StartAll, startAllTrace, hc, hz]
  · simp [StartAll, startAllTrace, hc, hz]

/-- C1 witness at a concrete all-success run. -/
theorem startAll_error_iff_zero_successes_witness :
    (StartAll envC bmC fsEmpty).1 = .ok ()
      ↔ okCount (startAllTrace envC bmC fsEmpty) ≠ 0 :=
  (startAll_error_iff_zero_successes envC bmC fsEmpty).2

/-- C2: After `StartAll` on a fresh manager, `GetProcessCount` equals the
number of successful attempts (exactly one handle is appended per
successful launch), and that count never exceeds `len execOrder`. -/
theorem getProcessCount_after_startAll (env : OsEnv) (bm : BinaryManager)
    (fs : FileSystem) (h : bm.processes = []) :
    GetProcessCount (StartAll env bm fs).2.1 = okCount (startAllTrace env bm fs)
    ∧ okCount (startAllTrace env bm fs) ≤ bm.execOrder.length
    ∧ (∀ name u bm' fs', startBinary env bm fs name = (.ok u, bm', fs') →
        ∃ hd, bm'.processes = bm.processes ++ [hd]) := by
  refine ⟨?_, ?_, ?_⟩
  · rw [GetProcessCount, StartAll_manager,
      startAllLoop_processes_length env bm.execOrder bm fs 0, h]
    simp [startAllTrace]
  · have htr := startAllLoop_trace_names env bm.execOrder bm fs 0
    have hle : okCount ((startAllLoop env bm.execOrder bm fs 0).2.2.2)
        ≤ ((startAllLoop env bm.execOrder bm fs 0).2.2.2).length :=
      List.length_filter_le _ _
    have hlen : ((startAllLoop env bm.execOrder bm fs 0).2.2.2).length
        = bm.execOrder.length := by
      conv_rhs => rw [← htr]
      rw [List.length_map]
    rw [startAllTrace]
    exact hle.trans (le_of_eq hlen)
  · intro name u bm' fs' hsb
    exact ⟨_, by rw [startBinary_ok_manager env bm fs name u bm' fs' hsb]⟩

/-- C2 witness at a concrete run from an empty process list. -/
theorem getProcessCount_after_startAll_witness :
    GetProcessCount (StartAll envC bmC fsEmpty).2.1
      = okCount (startAllTrace envC bmC fsEmpty)
    ∧ okCount (startAllTrace envC bmC fsEmpty) ≤ bmC.execOrder.length :=
  ⟨(getProcessCount_after_startAll envC bmC fsEmpty rfl).1,
   (getProcessCount_after_startAll envC bmC fsEmpty rfl).2.1⟩

/-- C3: `StartAll` attempts a resolve-and-launch for every name of
`execOrder`, strictly in sequence: the trace of attempts lists exactly the
names of `execOrder` in order (failures do not abort the loop), and each
step's state change is applied before the next name is attempted. -/
theorem startAll_attempts_every_name_in_order (env : OsEnv)
    (bm : BinaryManager) (fs : FileSystem) :
    (startAllTrace env bm fs).map Prod.fst = bm.execOrder
    ∧ (∀ name rest bm0 fs0 c,
        startAllLoop env (name :: rest) bm0 fs0 c =
          (let s := startBinary env bm0 fs0 name
           let r := startAllLoop env rest s.2.1 s.2.2
             (if isOkAttempt (name, s.1) then c + 1 else c)
           (r.1, r.2.1, r.2.2.1, (name, s.1) :: r.2.2.2))) := by
  constructor
  · exact startAllLoop_trace_names env bm.execOrder bm fs 0
  · intro name rest bm0 fs0 c
    rcases hsb : startBinary env bm0 fs0 name with ⟨res, bm1, fs1⟩
    cases res with
    | ok u => simp [startAllLoop, hsb, isOkAttempt]
    | error e => simp [startAllLoop, hsb, isOkAttempt]

/-- C3 witness at a concrete run. -/
theorem startAll_attempts_every_name_in_order_witness :
    (startAllTrace envC bmC fsEmpty).map Prod.fst = bmC.execOrder :=
  (startAll_attempts_every_name_in_order envC bmC fsEmpty).1

/-- C4: In Embedded mode, `startBinary` fails with `PayloadNotFoundError`
(spawning nothing) when the payload lacks the name's bytes, fails with
`ExtractionError` (spawning nothing) when the write fails, and after a
successful launch the file `cacheDir/name` holds exactly the payload's
bytes with the executable permission bit set. -/
theorem embedded_startBinary_spec (env : OsEnv) (bm : BinaryManager)
    (fs : FileSystem) (name : String) (hm : bm.useEmbedded = true) :
    (bm.binaries (joinPath "bin" name) = none →
      startBinary env bm fs name = (.error .payloadNotFound, bm, fs))
    ∧ (∀ data, bm.binaries (joinPath "bin" name) = some data →
        env.writeOk (joinPath bm.cacheDir name) = false →
        startBinary env bm fs name = (.error .extraction, bm, fs))
    ∧ (∀ u bm' fs', startBinary env bm fs name = (.ok u, bm', fs') →
        ∃ data f, bm.binaries (joinPath "bin" name) = some data
          ∧ fs' (joinPath bm.cacheDir name) = some f
          ∧ f.data = data ∧ hasExecPerm f.mode = true) := by
  refine ⟨?_, ?_, ?_⟩
  · intro hd
    simp [startBinary, hm, hd]
  · intro data hd hw
    simp [startBinary, hm, hd, hw]
  · intro u bm' fs' hsb
    rcases hd : bm.binaries (joinPath "bin" name) with _ | data
    · simp [startBinary, hm, hd] at hsb
    · cases hw : env.writeOk (joinPath bm.cacheDir name) with
      | false => simp [startBinary, hm, hd, hw] at hsb
      | true =>
        cases hs : env.startOk (joinPath bm.cacheDir name) with
        | false => simp [startBinary, launchProcess, hm, hd, hw, hs] at hsb
        | true =>
          simp [startBinary, launchProcess, hm, hd, hw, hs] at hsb
          refine ⟨data, ⟨data, 493⟩, ?_, ?_, rfl, (by decide : hasExecPerm 493 = true)⟩
          · rfl
          · rw [← hsb.2]
            simp [writeFile]

/-- C4 witness: the success case evaluated at a concrete embedded run. -/
theorem embedded_startBinary_spec_witness :
    ∃ data f, bmC.binaries (joinPath "bin" "a") = some data
      ∧ (startBinary envC bmC fsEmpty "a").2.2 (joinPath bmC.cacheDir "a") = some f
      ∧ f.data = data ∧ hasExecPerm f.mode = true :=
  (embedded_startBinary_spec envC bmC fsEmpty "a" rfl).2.2 ()
    (startBinary envC bmC fsEmpty "a").2.1
    (startBinary envC bmC fsEmpty "a").2.2 rfl

/-- C5: In Local mode, a missing `cacheDir/name` fails the attempt with
`BinaryNotFoundError` and spawns nothing (the manager is unchanged), later
names are still attempted, and a chmod failure on an existing file is not
fatal: the attempt proceeds to the launch step on the unchanged
filesystem. -/
theorem local_startBinary_spec (env : OsEnv) (bm : BinaryManager)
    (fs : FileSystem) (name : String) (hm : bm.useEmbedded = false) :
    (fs (joinPath bm.cacheDir name) = none →
      startBinary env bm fs name = (.error .binaryNotFound, bm, fs))
    ∧ (∀ f, fs (joinPath bm.cacheDir name) = some f →
        env.chmodOk (joinPath bm.cacheDir name) = false →
        startBinary env bm fs name
          = launchProcess env name (joinPath bm.cacheDir name) bm fs)
    ∧ (∀ rest c,
        ((startAllLoop env (name :: rest) bm fs c).2.2.2).map Prod.fst
          = name :: rest) := by
  refine ⟨?_, ?_, ?_⟩
  · intro hf
    simp [startBinary, hm, hf]
  · intro f hf hc
    simp [startBinary, hm, hf, hc]
  · intro rest c
    exact startAllLoop_trace_names env (name :: rest) bm fs c

/-- C5 witness: the missing-file case at a concrete local run. -/
theorem local_startBinary_spec_witness :
    startBinary envC bmL fsEmpty "x" = (.error .binaryNotFound, bmL, fsEmpty) :=
  (local_startBinary_spec envC bmL fsEmpty "x" rfl).1 rfl

/-- C6 counterexample: construction accepts the duplicated order
`["a", "a"]` verbatim, and a fully successful `StartAll` then appends two
`ProcessHandle`s sharing the name `a` — the claimed uniqueness is false. -/
theorem duplicate_names_counterexample :
    (NewBinaryManager envC true embC "./bin" ["a", "a"]).1 = .ok bmC
    ∧ ((StartAll envC bmC fsEmpty).2.1.processes.map ProcessHandle.name)
        = ["a", "a"]
    ∧ ¬ List.Nodup
        ((StartAll envC bmC fsEmpty).2.1.processes.map ProcessHandle.name) := by
  have h2 : ((StartAll envC bmC fsEmpty).2.1.processes.map ProcessHandle.name)
      = ["a", "a"] := rfl
  refine ⟨rfl, h2, ?_⟩
  rw [h2]
  decide

/-- C6 (amended): construction neither rejects nor de-duplicates a
repeated name — the constructed manager stores `execOrder` verbatim and
starts with an empty handle list, so with a repeated name two handles may
later share a name and write to the same cache path. -/
theorem newBinaryManager_execOrder_verbatim (env : OsEnv) (useEmbedded : Bool)
    (binaries : EmbedFS) (binPath : String) (order : List String)
    (bm : BinaryManager) (dirs : List String)
    (h : NewBinaryManager env useEmbedded binaries binPath order = (.ok bm, dirs)) :
    bm.execOrder = order ∧ bm.processes = [] := by
  cases useEmbedded with
  | true =>
    rcases hc : env.userCacheDir with _ | root
    · simp [NewBinaryManager, hc] at h
    · cases hmk : env.mkdirOk (joinPath (joinPath root "wachat") "bin") with
      | false => simp [NewBinaryManager, hc, hmk] at h
      | true =>
        simp [NewBinaryManager, hc, hmk] at h
        exact ⟨by rw [← h.1], by rw [← h.1]⟩
  | false =>
    cases ha : isAbs binPath with
    | true =>
      simp [NewBinaryManager, ha] at h
      exact ⟨by rw [← h.1], by rw [← h.1]⟩
    | false =>
      rcases hab : env.absPath binPath with _ | a
      · simp [NewBinaryManager, ha, hab] at h
      · simp [NewBinaryManager, ha, hab] at h
        exact ⟨by rw [← h.1], by rw [← h.1]⟩

/-- C6 witness: the amended claim at the duplicated concrete order. -/
theorem newBinaryManager_execOrder_verbatim_witness :
    bmC.execOrder = ["a", "a"] ∧ bmC.processes = [] :=
  newBinaryManager_execOrder_verbatim envC true embC "./bin" ["a", "a"] bmC
    [joinPath (joinPath "/cache" "wachat") "bin"] rfl

/-- C7: construction from settings fails with the disabled `ConfigError`
when the feature is disabled or the config is absent, and with the
empty-order `ConfigError` when the startup order is empty — in both cases
deterministically (the result does not depend on the OS environment) and
with no directory created. -/
theorem fromConfig_fails_before_side_effects (env : OsEnv)
    (cfg : Option BinariesConfig) (binaries : EmbedFS) :
    (IsEnabled cfg = false →
      NewBinaryManagerFromConfig env cfg binaries = (.error .disabled, []))
    ∧ (IsEnabled cfg = true → GetStartupOrder cfg = [] →
      NewBinaryManagerFromConfig env cfg binaries
        = (.error .noBinariesInStartupOrder, [])) := by
  constructor
  · intro h
    simp [NewBinaryManagerFromConfig, h]
  · intro h h2
    simp [NewBinaryManagerFromConfig, h, h2]

/-- C7 witness: a nil config and an enabled empty-order config. -/
theorem fromConfig_fails_before_side_effects_witness :
    NewBinaryManagerFromConfig envC none embC = (.error .disabled, [])
    ∧ NewBinaryManagerFromConfig envC (some ⟨true, true, "", []⟩) embC
        = (.error .noBinariesInStartupOrder, []) :=
  ⟨(fromConfig_fails_before_side_effects envC none embC).1 rfl,
   (fromConfig_fails_before_side_effects envC (some ⟨true, true, "", []⟩) embC).2
     rfl rfl⟩

/-- C8: `Cleanup` is safe in every state: it never changes the manager,
calling it twice gives the same result as once, on an empty handle list it
signals nothing, only handles with a non-null OS process are signalled,
and neither the resulting state nor the signals depend on whether the
individual kills succeed — it has no error to return. -/
theorem cleanup_idempotent_safe (env : OsEnv) (bm : BinaryManager) :
    (Cleanup env bm).bm = bm
    ∧ Cleanup env ((Cleanup env bm).bm) = Cleanup env bm
    ∧ (bm.processes = [] → (Cleanup env bm).signalled = [])
    ∧ (∀ pid, pid ∈ (Cleanup env bm).signalled →
        ∃ h, h ∈ bm.processes ∧ h.osProc = some pid)
    ∧ (∀ env2 : OsEnv, (Cleanup env2 bm).bm = (Cleanup env bm).bm
        ∧ (Cleanup env2 bm).signalled = (Cleanup env bm).signalled) := by
  refine ⟨rfl, rfl, ?_, ?_, ?_⟩
  · intro h
    simp [Cleanup, h]
  · intro pid hmem
    simp only [Cleanup, List.mem_filterMap] at hmem
    exact hmem
  · intro env2
    exact ⟨rfl, rfl⟩

/-- C8 witness: both cleanup calls on a concrete empty manager. -/
theorem cleanup_idempotent_safe_witness :
    (Cleanup envC bmC).bm = bmC ∧ (Cleanup envC bmC).signalled = [] :=
  ⟨(cleanup_idempotent_safe envC bmC).1,
   (cleanup_idempotent_safe envC bmC).2.2.1 rfl⟩

/-- C9: when binary-manager construction fails, the application treats the
subsystem as unavailable rather than fatal: `NewApp` still produces an app
(with a nil manager), and both `startup` and `shutdown` skip the manager's
operations — no `StartAll` effect on the filesystem, no process
signalled. -/
theorem app_degrades_when_construction_fails (env : OsEnv)
    (cfg : Option BinariesConfig) (binaries : EmbedFS) (fs : FileSystem)
    (hapi : env.apiOk = true)
    (hfail : ∃ e, (NewBinaryManagerFromConfig env cfg binaries).1 = .error e) :
    ∃ a, NewApp env cfg binaries = some a ∧ a.binaryManager = none
      ∧ App.startup env a fs = (a, fs) ∧ App.shutdown env a = (a, []) := by
  obtain ⟨e, he⟩ := hfail
  refine ⟨{ binaryManager := none }, ?_, rfl, rfl, rfl⟩
  rcases hr : NewBinaryManagerFromConfig env cfg binaries with ⟨res, dirs⟩
  rw [hr] at he
  simp at he
  subst he
  simp [NewApp, hapi, hr]

/-- C9 witness: a nil config under a healthy API. -/
theorem app_degrades_when_construction_fails_witness :
    ∃ a, NewApp envC none embC = some a ∧ a.binaryManager = none
      ∧ App.startup envC a fsEmpty = (a, fsEmpty)
      ∧ App.shutdown envC a = (a, []) :=
  app_degrades_when_construction_fails envC none embC fsEmpty rfl
    ⟨.disabled, rfl⟩

/-- C10: `Cleanup` never modifies the running handle list: after any
number of successive calls the `processes` sequence, and hence
`GetProcessCount`, is unchanged — terminated processes are never removed
from the list. -/
theorem cleanup_preserves_processes (env : OsEnv) (bm : BinaryManager)
    (n : Nat) :
    (cleanupN env n bm).processes = bm.processes
    ∧ GetProcessCount (cleanupN env n bm) = GetProcessCount bm := by
  have h : cleanupN env n bm = bm := by
    induction n with
    | zero => rfl
    | succ m ih => exact ih
  rw [h]
  exact ⟨rfl, rfl⟩

end Wachat
